import Mathlib

set_option maxRecDepth 100000

/-!
Verification development for the Waggle firmware core: the per-lane
beam-break direction-detection state machine
(`firmware/sensor/src/bee_counter.cpp`), the snapshot aggregation,
the CRC-8 checksum (`firmware/sensor/src/payload.h`) and the COBS
byte-stuffing encoder (`firmware/bridge/src/cobs.cpp`).

Machine integers are modelled as `Nat` with explicit reduction modulo
`2^32 = 4294967296` (for `uint32_t` values) and `2^16 = 65536` (for
`uint16_t` values) exactly where the C code stores into a variable of
that width.
-/

/-- Timing constant from `tunnel_config.h`: ignore edges within 3 ms of
the last edge on the same beam. -/
def DEBOUNCE_MS : Nat := 3

/-- Timing constant from `tunnel_config.h`: minimum valid transit time. -/
def MIN_TRANSIT_MS : Nat := 5

/-- Timing constant from `tunnel_config.h`: maximum valid transit time. -/
def MAX_TRANSIT_MS : Nat := 200

/-- Timing constant from `tunnel_config.h`: cooldown after a transit. -/
def REFRACTORY_MS : Nat := 30

/-- Timing constant from `tunnel_config.h`: beam held longer than this
sets the stuck flag. -/
def STUCK_BEAM_MS : Nat := 2000

/-- Wraparound-safe `uint32_t` subtraction `a - b` as performed by the C
code on 32-bit unsigned operands: the result is `(a - b) mod 2^32`. -/
def usub32 (a b : Nat) : Nat :=
  (4294967296 + a % 4294967296 - b % 4294967296) % 4294967296

/-- Lane state enumeration from `bee_counter.h`. -/
inductive LaneState where
  | LANE_IDLE
  | LANE_A_BROKEN
  | LANE_B_BROKEN
  | LANE_COOLDOWN
deriving DecidableEq, Repr

/-- Per-lane data structure from `bee_counter.h` (`struct LaneData`).
All `uint32_t` fields are modelled as `Nat` holding values `< 2^32`. -/
structure LaneData where
  state : LaneState
  state_enter_ms : Nat
  last_edge_a_ms : Nat
  last_edge_b_ms : Nat
  bees_in : Nat
  bees_out : Nat
  stuck : Bool
deriving DecidableEq, Repr

/-- A freshly initialised lane: `bee_counter_init` / the test helper
`lane_reset` zero the whole struct and set `state = LANE_IDLE`. -/
def laneInit : LaneData :=
  { state := .LANE_IDLE, state_enter_ms := 0, last_edge_a_ms := 0,
    last_edge_b_ms := 0, bees_in := 0, bees_out := 0, stuck := false }

/-- `lane_beam_a_event` from `bee_counter.cpp` (lines 13-44): debounce
against `last_edge_a_ms`, record the edge, then dispatch on the state:
`IDLE -> A_BROKEN`; `B_BROKEN -> COOLDOWN` incrementing `bees_out` when
the transit time lies in `[MIN_TRANSIT_MS, MAX_TRANSIT_MS]`;
`A_BROKEN`/`COOLDOWN` ignore the edge. -/
def lane_beam_a_event (lane : LaneData) (now_ms : Nat) : LaneData :=
  if usub32 now_ms lane.last_edge_a_ms < DEBOUNCE_MS then lane
  else
    let l1 : LaneData := { lane with last_edge_a_ms := now_ms % 4294967296 }
    match l1.state with
    | .LANE_IDLE =>
        { l1 with state := .LANE_A_BROKEN, state_enter_ms := now_ms % 4294967296 }
    | .LANE_B_BROKEN =>
        let transit := usub32 now_ms l1.state_enter_ms
        let l2 : LaneData :=
          if MIN_TRANSIT_MS ≤ transit ∧ transit ≤ MAX_TRANSIT_MS then
            { l1 with bees_out := (l1.bees_out + 1) % 4294967296 }
          else l1
        { l2 with state := .LANE_COOLDOWN, state_enter_ms := now_ms % 4294967296 }
    | .LANE_A_BROKEN => l1
    | .LANE_COOLDOWN => l1

/-- `lane_beam_b_event` from `bee_counter.cpp` (lines 46-77): the
symmetric handler; `A_BROKEN -> COOLDOWN` increments `bees_in` when the
transit time is valid. -/
def lane_beam_b_event (lane : LaneData) (now_ms : Nat) : LaneData :=
  if usub32 now_ms lane.last_edge_b_ms < DEBOUNCE_MS then lane
  else
    let l1 : LaneData := { lane with last_edge_b_ms := now_ms % 4294967296 }
    match l1.state with
    | .LANE_IDLE =>
        { l1 with state := .LANE_B_BROKEN, state_enter_ms := now_ms % 4294967296 }
    | .LANE_A_BROKEN =>
        let transit := usub32 now_ms l1.state_enter_ms
        let l2 : LaneData :=
          if MIN_TRANSIT_MS ≤ transit ∧ transit ≤ MAX_TRANSIT_MS then
            { l1 with bees_in := (l1.bees_in + 1) % 4294967296 }
          else l1
        { l2 with state := .LANE_COOLDOWN, state_enter_ms := now_ms % 4294967296 }
    | .LANE_B_BROKEN => l1
    | .LANE_COOLDOWN => l1

/-- `lane_check_timeout` from `bee_counter.cpp` (lines 79-106): in the
broken states a transit timeout reverts to `IDLE` and, independently, a
stuck beam latches `stuck := true`; in `COOLDOWN` the refractory period
elapsing reverts to `IDLE`.  Note the C code does not touch
`state_enter_ms` in any branch. -/
def lane_check_timeout (lane : LaneData) (now_ms : Nat) : LaneData :=
  let elapsed := usub32 now_ms lane.state_enter_ms
  match lane.state with
  | .LANE_A_BROKEN =>
      let l1 : LaneData :=
        if MAX_TRANSIT_MS < elapsed then { lane with state := .LANE_IDLE } else lane
      if STUCK_BEAM_MS < elapsed then { l1 with stuck := true } else l1
  | .LANE_B_BROKEN =>
      let l1 : LaneData :=
        if MAX_TRANSIT_MS < elapsed then { lane with state := .LANE_IDLE } else lane
      if STUCK_BEAM_MS < elapsed then { l1 with stuck := true } else l1
  | .LANE_COOLDOWN =>
      if REFRACTORY_MS ≤ elapsed then { lane with state := .LANE_IDLE } else lane
  | .LANE_IDLE => lane

/-- Snapshot record from `bee_counter.h` (`struct BeeCountSnapshot`).
`bees_in` and `bees_out` are `uint16_t` in the C struct; values stored
into them are reduced modulo `2^16` at every assignment. -/
structure BeeCountSnapshot where
  bees_in : Nat
  bees_out : Nat
  period_ms : Nat
  lane_mask : Nat
  stuck_mask : Nat
deriving DecidableEq, Repr

/-- The per-channel loop of `bee_counter_snapshot` (`bee_counter.cpp`
lines 206-230).  `mask` is `s_lane_mask`, `now` the sampled time, `ch`
the current channel index, and `bin`/`bout`/`smask` the accumulator
fields `snap.bees_in`/`snap.bees_out`/`snap.stuck_mask` carried through
the loop.  Because `snap.bees_in` and `snap.bees_out` are `uint16_t`,
every `+=` stores the sum reduced modulo `2^16`.  Returns the final
accumulators together with the updated lane array. -/
def snapChannels (mask now : Nat) :
    List LaneData → Nat → Nat → Nat → Nat → Nat × Nat × Nat × List LaneData
  | [], _ch, bin, bout, smask => (bin, bout, smask, [])
  | lane :: rest, ch, bin, bout, smask =>
    if mask &&& (1 <<< ch) = 0 then
      let r := snapChannels mask now rest (ch + 1) bin bout smask
      (r.1, r.2.1, r.2.2.1, lane :: r.2.2.2)
    else
      let l1 := lane_check_timeout lane now
      let in_count := l1.bees_in
      let out_count := l1.bees_out
      let l2 : LaneData := { l1 with bees_in := 0, bees_out := 0 }
      let bin' := (bin + (if 65535 < in_count then 65535 else in_count)) % 65536
      let bout' := (bout + (if 65535 < out_count then 65535 else out_count)) % 65536
      let smask' := if l2.stuck then smask ||| (1 <<< ch) else smask
      let l3 : LaneData := if l2.stuck then { l2 with stuck := false } else l2
      let r := snapChannels mask now rest (ch + 1) bin' bout' smask'
      (r.1, r.2.1, r.2.2.1, l3 :: r.2.2.2)

/-- `bee_counter_snapshot` from `bee_counter.cpp` (lines 196-247), with
the module statics passed explicitly: `lanes` is `s_lanes`, `lane_mask`
is `s_lane_mask`, `now` the value of `millis()` and `last_snapshot_ms`
the static `s_last_snapshot_ms`.  Returns the snapshot, the updated lane
array, and the new `s_last_snapshot_ms`.  The trailing comparisons with
65535 reproduce the final clamp in the C code verbatim (on the
`uint16_t` accumulators they can never fire). -/
def bee_counter_snapshot (lanes : List LaneData)
    (lane_mask now last_snapshot_ms : Nat) :
    BeeCountSnapshot × List LaneData × Nat :=
  let r := snapChannels lane_mask now lanes 0 0 0 0
  let bin := if 65535 < r.1 then 65535 else r.1
  let bout := if 65535 < r.2.1 then 65535 else r.2.1
  ({ bees_in := bin, bees_out := bout,
     period_ms := usub32 now last_snapshot_ms,
     lane_mask := lane_mask, stuck_mask := r.2.2.1 },
   r.2.2.2, now % 4294967296)

/-- One shift-and-reduce round of the CRC-8 inner loop (`payload.h`
lines 98-103): the working byte is `uint8_t`, so every store is reduced
modulo 256. -/
def crc8_round (crc : Nat) : Nat :=
  if crc &&& 0x80 ≠ 0 then ((crc <<< 1) ^^^ 0x07) % 256 else (crc <<< 1) % 256

/-- The eight inner-loop rounds of `crc8`. -/
def crc8_rounds : Nat → Nat → Nat
  | 0, crc => crc
  | j + 1, crc => crc8_rounds j (crc8_round crc)

/-- `crc8` from `payload.h` (lines 94-106): polynomial 0x07, initial
value 0x00, no reflection.  For each input byte the byte is xor-ed into
the working value (a `uint8_t`, hence the reduction modulo 256) and
eight shift rounds are applied. -/
def crc8 (data : List Nat) : Nat :=
  data.foldl (fun crc b => crc8_rounds 8 ((crc ^^^ b) % 256)) 0

/-- The encoder loop of `cobs_encode` from `cobs.cpp` (lines 16-54),
phrased over the final contents of the output buffer.  At every point of
the C loop the buffer holds `acc ++ code-byte-slot ++ run` where `acc`
is `output[0..code_idx)` (already committed), the slot at `code_idx`
will receive the current `code`, and `run` is
`output(code_idx..write_idx)` (the data bytes of the open block), with
the invariant `code = run.length + 1`.
The branches mirror the C loop body: an input zero commits the open
block and opens a fresh one; a non-zero byte is appended to the run and,
when `code` reaches 0xFF, the block is force-committed — opening a fresh
block only if input remains (`need_final = (i + 1) < len`); at the end
of input the final `code` is committed unless the loop just
force-committed a block at the last byte (`need_final == false`, where
the C code reclaims the reserved slot). -/
def cobsGo : List Nat → Nat → List Nat → List Nat → List Nat
  | [], code, run, acc => acc ++ code :: run
  | b :: rest, code, run, acc =>
    if b = 0 then
      cobsGo rest 1 [] (acc ++ code :: run)
    else
      if code + 1 = 255 then
        if rest = [] then acc ++ (code + 1) :: (run ++ [b])
        else cobsGo rest 1 [] (acc ++ (code + 1) :: (run ++ [b]))
      else
        cobsGo rest (code + 1) (run ++ [b]) acc

/-- `cobs_encode` from `cobs.cpp` (lines 16-54): the loop starts with an
empty committed prefix, an empty open run and `code = 1`. -/
def cobs_encode (input : List Nat) : List Nat :=
  cobsGo input 1 [] []

/-- Modelled from the spec: the COBS decoder is not part of this
repository (it lives in the Python backend); §4.2 of the spec implies
it: each block starts with a code byte equal to `run length + 1`, the
following `code - 1` bytes are literal data, and when more encoded bytes
follow, a zero byte of the original data is reconstructed after the
block unless the block was force-closed with code 255.  The first
argument is fuel bounding the recursion depth; the stream shrinks by at
least one byte per block, so fuel equal to the stream length suffices. -/
def cobsDecodeAux : Nat → List Nat → List Nat
  | 0, _ => []
  | _ + 1, [] => []
  | fuel + 1, c :: rest =>
    let run := rest.take (c - 1)
    let rest' := rest.drop (c - 1)
    if rest' = [] then run
    else run ++ (if c = 255 then [] else [0]) ++ cobsDecodeAux fuel rest'

/-- Modelled from the spec: the COBS decoder implied by §4.2, run with
sufficient fuel. -/
def cobs_decode (stream : List Nat) : List Nat :=
  cobsDecodeAux stream.length stream

/-! ### Arithmetic helpers -/

/-- When no wraparound occurs (`b ≤ a < 2^32`), `uint32_t` subtraction
agrees with `Nat` subtraction. -/
theorem usub32_eq {a b : Nat} (hba : b ≤ a) (ha : a < 4294967296) :
    usub32 a b = a - b := by
  unfold usub32
  omega

/-! ### Step lemmas for the lane state machine -/

/-- A debounced A edge leaves the lane unchanged. -/
theorem beam_a_debounced {lane : LaneData} {now : Nat}
    (h : usub32 now lane.last_edge_a_ms < DEBOUNCE_MS) :
    lane_beam_a_event lane now = lane := by
  unfold lane_beam_a_event
  rw [if_pos h]

/-- An accepted A edge in `IDLE` moves to `A_BROKEN`, recording the
entry time and the edge time. -/
theorem beam_a_idle {lane : LaneData} {now : Nat}
    (hs : lane.state = .LANE_IDLE)
    (hd : ¬ usub32 now lane.last_edge_a_ms < DEBOUNCE_MS) :
    lane_beam_a_event lane now =
      { lane with state := .LANE_A_BROKEN,
                  state_enter_ms := now % 4294967296,
                  last_edge_a_ms := now % 4294967296 } := by
  obtain ⟨s, e, la, lb, bi, bo, st⟩ := lane
  simp only at hs
  subst hs
  simp [lane_beam_a_event, hd]

/-- An accepted A edge in `B_BROKEN` moves to `COOLDOWN`, incrementing
`bees_out` exactly when the transit time is within the valid window. -/
theorem beam_a_b_broken {lane : LaneData} {now : Nat}
    (hs : lane.state = .LANE_B_BROKEN)
    (hd : ¬ usub32 now lane.last_edge_a_ms < DEBOUNCE_MS) :
    lane_beam_a_event lane now =
      if MIN_TRANSIT_MS ≤ usub32 now lane.state_enter_ms ∧
         usub32 now lane.state_enter_ms ≤ MAX_TRANSIT_MS then
        { lane with state := .LANE_COOLDOWN,
                    state_enter_ms := now % 4294967296,
                    last_edge_a_ms := now % 4294967296,
                    bees_out := (lane.bees_out + 1) % 4294967296 }
      else
        { lane with state := .LANE_COOLDOWN,
                    state_enter_ms := now % 4294967296,
                    last_edge_a_ms := now % 4294967296 } := by
  obtain ⟨s, e, la, lb, bi, bo, st⟩ := lane
  simp only at hs
  subst hs
  simp only [lane_beam_a_event, if_neg hd]
  split <;> rfl

/-- A debounced B edge leaves the lane unchanged. -/
theorem beam_b_debounced {lane : LaneData} {now : Nat}
    (h : usub32 now lane.last_edge_b_ms < DEBOUNCE_MS) :
    lane_beam_b_event lane now = lane := by
  unfold lane_beam_b_event
  rw [if_pos h]

/-- An accepted B edge in `IDLE` moves to `B_BROKEN`, recording the
entry time and the edge time. -/
theorem beam_b_idle {lane : LaneData} {now : Nat}
    (hs : lane.state = .LANE_IDLE)
    (hd : ¬ usub32 now lane.last_edge_b_ms < DEBOUNCE_MS) :
    lane_beam_b_event lane now =
      { lane with state := .LANE_B_BROKEN,
                  state_enter_ms := now % 4294967296,
                  last_edge_b_ms := now % 4294967296 } := by
  obtain ⟨s, e, la, lb, bi, bo, st⟩ := lane
  simp only at hs
  subst hs
  simp [lane_beam_b_event, hd]

/-- An accepted B edge in `A_BROKEN` moves to `COOLDOWN`, incrementing
`bees_in` exactly when the transit time is within the valid window. -/
theorem beam_b_a_broken {lane : LaneData} {now : Nat}
    (hs : lane.state = .LANE_A_BROKEN)
    (hd : ¬ usub32 now lane.last_edge_b_ms < DEBOUNCE_MS) :
    lane_beam_b_event lane now =
      if MIN_TRANSIT_MS ≤ usub32 now lane.state_enter_ms ∧
         usub32 now lane.state_enter_ms ≤ MAX_TRANSIT_MS then
        { lane with state := .LANE_COOLDOWN,
                    state_enter_ms := now % 4294967296,
                    last_edge_b_ms := now % 4294967296,
                    bees_in := (lane.bees_in + 1) % 4294967296 }
      else
        { lane with state := .LANE_COOLDOWN,
                    state_enter_ms := now % 4294967296,
                    last_edge_b_ms := now % 4294967296 } := by
  obtain ⟨s, e, la, lb, bi, bo, st⟩ := lane
  simp only at hs
  subst hs
  simp only [lane_beam_b_event, if_neg hd]
  split <;> rfl

/-- A timeout check on a waiting lane within the transit window changes
nothing at all. -/
theorem timeout_noop_within_window {lane : LaneData} {now : Nat}
    (hs : lane.state = .LANE_A_BROKEN ∨ lane.state = .LANE_B_BROKEN)
    (h1 : lane.state_enter_ms ≤ now) (h2 : now < 4294967296)
    (h3 : now - lane.state_enter_ms ≤ MAX_TRANSIT_MS) :
    lane_check_timeout lane now = lane := by
  obtain ⟨s, e, la, lb, bi, bo, st⟩ := lane
  simp only at hs h1 h3
  have hu : usub32 now e = now - e := usub32_eq h1 h2
  rcases hs with hs | hs <;> subst hs <;>
    simp only [lane_check_timeout, hu, MAX_TRANSIT_MS, STUCK_BEAM_MS,
      MIN_TRANSIT_MS] <;>
    rw [if_neg (by simp only [MAX_TRANSIT_MS] at h3; omega),
        if_neg (by simp only [MAX_TRANSIT_MS] at h3; omega)]

/-- A timeout check on a waiting lane past the stuck threshold latches
the stuck flag (and reverts the state to `IDLE`). -/
theorem timeout_sets_stuck {lane : LaneData} {now : Nat}
    (hs : lane.state = .LANE_A_BROKEN ∨ lane.state = .LANE_B_BROKEN)
    (h1 : lane.state_enter_ms + STUCK_BEAM_MS < now) (h2 : now < 4294967296) :
    (lane_check_timeout lane now).stuck = true := by
  obtain ⟨s, e, la, lb, bi, bo, st⟩ := lane
  simp only at hs h1
  simp only [STUCK_BEAM_MS] at h1
  have hu : usub32 now e = now - e := usub32_eq (by omega) h2
  rcases hs with hs | hs <;> subst hs <;>
    simp only [lane_check_timeout, hu, MAX_TRANSIT_MS, STUCK_BEAM_MS] <;>
    rw [if_pos (by omega : (2000 : Nat) < now - e)]

/-! ### Structural lemmas about the COBS encoder loop -/

/-- The committed prefix `acc` is only ever appended to by the encoder
loop. -/
theorem cobsGo_acc (rest : List Nat) :
    ∀ code run acc, cobsGo rest code run acc = acc ++ cobsGo rest code run [] := by
  induction rest with
  | nil => intro code run acc; simp [cobsGo]
  | cons b rest ih =>
    intro code run acc
    by_cases hb : b = 0
    · simp only [cobsGo, if_pos hb]
      rw [ih 1 [] (acc ++ code :: run), ih 1 [] ([] ++ code :: run)]
      simp
    · by_cases hc : code + 1 = 255
      · by_cases hr : rest = []
        · simp [cobsGo, hb, hc, hr]
        · simp only [cobsGo, if_neg hb, if_pos hc, if_neg hr]
          rw [ih 1 [] (acc ++ (code + 1) :: (run ++ [b])),
              ih 1 [] ([] ++ (code + 1) :: (run ++ [b]))]
          simp
      · simp only [cobsGo, if_neg hb, if_neg hc]
        rw [ih (code + 1) (run ++ [b]) acc]

/-- The encoder loop always emits at least the pending code byte and the
open run. -/
theorem cobsGo_length (rest : List Nat) :
    ∀ code run, run.length + 1 ≤ (cobsGo rest code run []).length := by
  induction rest with
  | nil => intro code run; simp [cobsGo]
  | cons b rest ih =>
    intro code run
    by_cases hb : b = 0
    · simp only [cobsGo, if_pos hb]
      rw [cobsGo_acc rest 1 [] ([] ++ code :: run)]
      have := ih 1 []
      simp only [List.length_append, List.length_cons, List.nil_append] at *
      omega
    · by_cases hc : code + 1 = 255
      · by_cases hr : rest = []
        · simp [cobsGo, hb, hc, hr]
        · simp only [cobsGo, if_neg hb, if_pos hc, if_neg hr]
          rw [cobsGo_acc rest 1 [] ([] ++ (code + 1) :: (run ++ [b]))]
          have := ih 1 []
          simp only [List.length_append, List.length_cons, List.nil_append] at *
          omega
      · simp only [cobsGo, if_neg hb, if_neg hc]
        have := ih (code + 1) (run ++ [b])
        simp only [List.length_append, List.length_cons] at *
        omega

/-- Every byte the encoder loop can ever emit is non-zero, provided the
pending code byte is in `[1, 254]`, the open run holds no zero and the
committed prefix holds no zero. -/
theorem cobsGo_forall_ne_zero :
    ∀ (rest : List Nat) (code : Nat) (run acc : List Nat),
      1 ≤ code → code ≤ 254 → (∀ x ∈ run, x ≠ 0) → (∀ x ∈ acc, x ≠ 0) →
      ∀ x ∈ cobsGo rest code run acc, x ≠ 0 := by
  intro rest
  induction rest with
  | nil =>
    intro code run acc h1 _h2 hrun hacc
    simp only [cobsGo]
    rw [List.forall_mem_append, List.forall_mem_cons]
    exact ⟨hacc, by omega, hrun⟩
  | cons b rest ih =>
    intro code run acc h1 h2 hrun hacc
    by_cases hb : b = 0
    · simp only [cobsGo, if_pos hb]
      refine ih 1 [] (acc ++ code :: run) (by omega) (by omega) (by simp) ?_
      rw [List.forall_mem_append, List.forall_mem_cons]
      exact ⟨hacc, by omega, hrun⟩
    · have hrun' : ∀ x ∈ run ++ [b], x ≠ 0 := by
        rw [List.forall_mem_append, List.forall_mem_singleton]
        exact ⟨hrun, hb⟩
      by_cases hc : code + 1 = 255
      · by_cases hr : rest = []
        · simp only [cobsGo, if_neg hb, if_pos hc, if_pos hr]
          rw [List.forall_mem_append, List.forall_mem_cons]
          exact ⟨hacc, by omega, hrun'⟩
        · simp only [cobsGo, if_neg hb, if_pos hc, if_neg hr]
          refine ih 1 [] (acc ++ (code + 1) :: (run ++ [b])) (by omega)
            (by omega) (by simp) ?_
          rw [List.forall_mem_append, List.forall_mem_cons]
          exact ⟨hacc, by omega, hrun'⟩
      · simp only [cobsGo, if_neg hb, if_neg hc]
        exact ih (code + 1) (run ++ [b]) acc (by omega) (by omega) hrun' hacc

/-- Output-length invariant of the encoder loop: with the code/run
invariant `code = run.length + 1`, the emitted bytes number at most one
code byte plus the open run plus the remaining input plus one extra code
byte per 254 bytes that can still force-close a block. -/
theorem cobsGo_length_bound :
    ∀ (rest run : List Nat),
      (cobsGo rest (run.length + 1) run []).length ≤
        1 + run.length + rest.length + (run.length + rest.length) / 254 := by
  intro rest
  induction rest with
  | nil =>
    intro run
    simp only [cobsGo, List.nil_append, List.length_cons, List.length_nil]
    omega
  | cons b rest ih =>
    intro run
    by_cases hb : b = 0
    · simp only [cobsGo, if_pos hb]
      rw [cobsGo_acc rest 1 [] ([] ++ (run.length + 1) :: run)]
      have h := ih []
      simp only [List.length_nil, List.length_cons, List.length_append,
        List.length_singleton, List.nil_append, Nat.zero_add] at h ⊢
      omega
    · by_cases hc : run.length + 1 + 1 = 255
      · by_cases hr : rest = []
        · simp only [cobsGo, if_neg hb, if_pos hc, if_pos hr]
          subst hr
          simp only [List.length_nil, List.length_cons, List.length_append,
            List.length_singleton, List.nil_append, Nat.zero_add]
          omega
        · simp only [cobsGo, if_neg hb, if_pos hc, if_neg hr]
          rw [cobsGo_acc rest 1 []
            ([] ++ (run.length + 1 + 1) :: (run ++ [b]))]
          have h := ih []
          simp only [List.length_nil, List.length_cons, List.length_append,
            List.length_singleton, List.nil_append, Nat.zero_add] at h ⊢
          omega
      · simp only [cobsGo, if_neg hb, if_neg hc]
        have h := ih (run ++ [b])
        simp only [List.length_nil, List.length_cons, List.length_append,
          List.length_singleton, List.nil_append, Nat.zero_add] at h ⊢
        omega

/-- When the remaining input is all non-zero and fills the open block to
exactly 254 data bytes, the encoder commits a single block with code 255
and no further code byte. -/
theorem cobsGo_full_block :
    ∀ (rest run : List Nat),
      (∀ x ∈ rest, x ≠ 0) → run.length + rest.length = 254 → rest ≠ [] →
      cobsGo rest (run.length + 1) run [] = 255 :: (run ++ rest) := by
  intro rest
  induction rest with
  | nil => intro run _ _ h; exact absurd rfl h
  | cons b rest ih =>
    intro run hnz hlen _
    have hb : b ≠ 0 := hnz b (List.mem_cons_self b rest)
    by_cases hr : rest = []
    · subst hr
      have hc : run.length + 1 + 1 = 255 := by
        simp only [List.length_cons, List.length_nil] at hlen; omega
      simp [cobsGo, hb, hc]
    · have hc : ¬ run.length + 1 + 1 = 255 := by
        simp only [List.length_cons] at hlen
        have : rest.length ≠ 0 := by
          intro h0; exact hr (List.eq_nil_of_length_eq_zero h0)
        omega
      simp only [cobsGo, if_neg hb, if_neg hc]
      have h := ih (run ++ [b]) (fun x hx => hnz x (List.mem_cons_of_mem b hx))
        (by simp only [List.length_append, List.length_singleton,
              List.length_cons, List.length_nil, Nat.zero_add] at hlen ⊢;
            omega) hr
      simp only [List.length_append, List.length_singleton] at h
      rw [h, List.append_assoc, List.singleton_append]

/-- One decoding step on a stream whose first block is followed by more
encoded bytes. -/
theorem cobsDecodeAux_step (f c : Nat) (run X : List Nat)
    (hc : c - 1 = run.length) (hX : X ≠ []) :
    cobsDecodeAux (f + 1) (c :: (run ++ X)) =
      run ++ (if c = 255 then [] else [0]) ++ cobsDecodeAux f X := by
  simp only [cobsDecodeAux]
  rw [hc, List.take_left, List.drop_left, if_neg hX]

/-- Decoding the last block of a stream returns its data bytes. -/
theorem cobsDecodeAux_last (f c : Nat) (run : List Nat)
    (hc : c - 1 = run.length) :
    cobsDecodeAux (f + 1) (c :: run) = run := by
  simp only [cobsDecodeAux]
  rw [hc, List.take_length, List.drop_length]
  simp

/-- Decoding inverts the encoder loop: decoding the bytes the loop emits
for remaining input `rest`, with open run `run` (at most 253 bytes) and
pending code `run.length + 1`, recovers `run ++ rest` — given enough
fuel. -/
theorem cobsDecodeAux_cobsGo :
    ∀ (rest run : List Nat) (fuel : Nat),
      run.length ≤ 253 →
      (cobsGo rest (run.length + 1) run []).length ≤ fuel →
      cobsDecodeAux fuel (cobsGo rest (run.length + 1) run []) = run ++ rest := by
  intro rest
  induction rest with
  | nil =>
    intro run fuel _hle hfuel
    simp only [cobsGo, List.nil_append] at hfuel ⊢
    cases fuel with
    | zero => simp only [List.length_cons] at hfuel; omega
    | succ f =>
      rw [cobsDecodeAux_last f (run.length + 1) run (by omega)]
      simp
  | cons b rest ih =>
    intro run fuel hle hfuel
    by_cases hb : b = 0
    · rw [show cobsGo (b :: rest) (run.length + 1) run [] =
            (run.length + 1) :: (run ++ cobsGo rest 1 [] []) by
          simp only [cobsGo, if_pos hb]
          rw [cobsGo_acc rest 1 [] ([] ++ (run.length + 1) :: run)]
          simp] at hfuel ⊢
      have hX : 0 < (cobsGo rest 1 [] []).length := cobsGo_length rest 1 []
      cases fuel with
      | zero =>
        simp only [List.length_cons, List.length_append] at hfuel; omega
      | succ f =>
        rw [cobsDecodeAux_step f (run.length + 1) run (cobsGo rest 1 [] [])
          (by omega) (by intro h; rw [h] at hX; simp at hX)]
        rw [if_neg (by omega : ¬ run.length + 1 = 255)]
        have hXf : (cobsGo rest (([] : List Nat).length + 1) [] []).length ≤ f := by
          simp only [List.length_nil, Nat.zero_add]
          simp only [List.length_cons, List.length_append] at hfuel
          omega
        have hrec := ih [] f (by simp) hXf
        simp only [List.length_nil, Nat.zero_add, List.nil_append] at hrec
        rw [hrec, hb]
        simp
    · by_cases hc : run.length + 1 + 1 = 255
      · have hlen : (run ++ [b]).length = 254 := by
          simp only [List.length_append, List.length_singleton]; omega
        by_cases hr : rest = []
        · subst hr
          rw [show cobsGo [b] (run.length + 1) run [] =
                (run.length + 1 + 1) :: (run ++ [b]) by
              simp [cobsGo, hb, hc]] at hfuel ⊢
          cases fuel with
          | zero => simp only [List.length_cons] at hfuel; omega
          | succ f =>
            rw [cobsDecodeAux_last f (run.length + 1 + 1) (run ++ [b])
              (by omega)]
        · rw [show cobsGo (b :: rest) (run.length + 1) run [] =
                (run.length + 1 + 1) ::
                  ((run ++ [b]) ++ cobsGo rest 1 [] []) by
              simp only [cobsGo, if_neg hb, if_pos hc, if_neg hr]
              rw [cobsGo_acc rest 1 []
                ([] ++ (run.length + 1 + 1) :: (run ++ [b]))]
              simp] at hfuel ⊢
          have hX : 0 < (cobsGo rest 1 [] []).length := cobsGo_length rest 1 []
          cases fuel with
          | zero =>
            simp only [List.length_cons, List.length_append] at hfuel; omega
          | succ f =>
            rw [cobsDecodeAux_step f (run.length + 1 + 1) (run ++ [b])
              (cobsGo rest 1 [] [])
              (by simp only [List.length_append, List.length_singleton]; omega)
              (by intro h; rw [h] at hX; simp at hX)]
            rw [if_pos hc]
            have hXf : (cobsGo rest (([] : List Nat).length + 1) [] []).length ≤ f := by
              simp only [List.length_nil, Nat.zero_add]
              simp only [List.length_cons, List.length_append] at hfuel
              omega
            have hrec := ih [] f (by simp) hXf
            simp only [List.length_nil, Nat.zero_add, List.nil_append] at hrec
            rw [hrec]
            simp
      · rw [show cobsGo (b :: rest) (run.length + 1) run [] =
              cobsGo rest ((run ++ [b]).length + 1) (run ++ [b]) [] by
            simp only [cobsGo, if_neg hb, if_neg hc, List.length_append,
              List.length_singleton]] at hfuel ⊢
        have hrec := ih (run ++ [b]) fuel
          (by simp only [List.length_append, List.length_singleton]; omega)
          hfuel
        rw [hrec]
        simp

/-- Decoding an encoded stream recovers the original input, for every
input byte list. -/
theorem cobs_roundtrip (l : List Nat) : cobs_decode (cobs_encode l) = l := by
  unfold cobs_decode cobs_encode
  have h := cobsDecodeAux_cobsGo l []
    ((cobsGo l (([] : List Nat).length + 1) [] []).length)
    (by simp) (Nat.le_refl _)
  simp only [List.length_nil, Nat.zero_add, List.nil_append] at h
  exact h

/-! ### Claim theorems -/

/-- C2: for every input byte sequence, every byte of the output of
`cobs_encode` is non-zero. -/
theorem c2_encode_no_zero_bytes (input : List Nat) :
    (cobs_encode input).all (fun y => y != 0) = true := by
  rw [List.all_eq_true]
  intro y hy
  simp only [cobs_encode] at hy
  have h := cobsGo_forall_ne_zero input 1 [] [] (by omega) (by omega)
    (by simp) (by simp) y hy
  simpa using h

/-- C3: for every input of length 32 and every input of length 48,
applying the spec-implied COBS decoder to the output of `cobs_encode`
reproduces the original input exactly. -/
theorem c3_roundtrip_payload_sizes (payload : List Nat)
    (h : payload.length = 32 ∨ payload.length = 48) :
    cobs_decode (cobs_encode payload) = payload :=
  cobs_roundtrip payload

/-- Witness for C3 at a concrete payload of length 32. -/
theorem c3_roundtrip_payload_sizes_witness :
    ((List.range 32).length = 32 ∨ (List.range 32).length = 48) ∧
      cobs_decode (cobs_encode (List.range 32)) = List.range 32 :=
  ⟨Or.inl (by decide),
   c3_roundtrip_payload_sizes (List.range 32) (Or.inl (by decide))⟩

/-- C8: for every input of length `n`, `cobs_encode` writes at most
`n + ceil(n / 254) + 1` bytes (`ceil(n / 254) = (n + 253) / 254`). -/
theorem c8_encode_length_bound (input : List Nat) :
    (cobs_encode input).length ≤
      input.length + (input.length + 253) / 254 + 1 := by
  have h := cobsGo_length_bound input []
  simp only [List.length_nil, Nat.zero_add] at h
  unfold cobs_encode
  omega

/-- C9: the `crc8` function (polynomial 0x07, initial value 0x00, no
reflection) satisfies the reference vectors: the nine ASCII bytes of
"123456789" hash to 0xF4, the single byte 0x01 hashes to 0x07, and the
empty input hashes to 0x00. -/
theorem c9_crc8_reference_vectors :
    crc8 [0x31, 0x32, 0x33, 0x34, 0x35, 0x36, 0x37, 0x38, 0x39] = 0xF4 ∧
      crc8 [0x01] = 0x07 ∧ crc8 [] = 0x00 := by
  refine ⟨by decide, by decide, by decide⟩

/-- C10: when the input is exactly 254 non-zero bytes, the encoder emits
exactly 255 bytes — the code byte 0xFF followed by the 254 data bytes —
with no trailing 0x01 code byte. -/
theorem c10_full_block_encoding (input : List Nat)
    (hlen : input.length = 254) (hnz : ∀ x ∈ input, x ≠ 0) :
    cobs_encode input = 255 :: input ∧ (cobs_encode input).length = 255 := by
  have hne : input ≠ [] := by
    intro h
    rw [h] at hlen
    simp at hlen
  have h := cobsGo_full_block input [] hnz (by simpa using hlen) hne
  simp only [List.length_nil, Nat.zero_add, List.nil_append] at h
  unfold cobs_encode
  refine ⟨h, ?_⟩
  rw [h]
  simp [hlen]

/-- Witness for C10 at the concrete input of 254 bytes 0x01. -/
theorem c10_full_block_encoding_witness :
    cobs_encode (List.replicate 254 1) = 255 :: List.replicate 254 1 ∧
      (cobs_encode (List.replicate 254 1)).length = 255 :=
  c10_full_block_encoding (List.replicate 254 1) (by decide) (by decide)

/-- C5: the snapshot totals do wrap modulo 2^16 instead of saturating at
65535: with lanes 0 and 1 active and 40000 accumulated bees each, the
reported total is `(40000 + 40000) mod 65536 = 14464`, not 65535 — the
`uint16_t` accumulator field wraps before the final (dead) clamp. -/
theorem c5_snapshot_totals_wrap :
    (bee_counter_snapshot
        [{ laneInit with bees_in := 40000 },
         { laneInit with bees_in := 40000 }, laneInit, laneInit]
        3 1000 0).1.bees_in = 14464 := by
  decide

/-- C1 fails as stated: for the pair `(a_time, b_time) = (0, 5)` (spacing
5 = MIN_TRANSIT_MS), a freshly initialised lane does not end in
`COOLDOWN` with `count_in = 1`: the A edge at time 0 is debounced against
the zero-initialised `last_edge_a_ms`, so the lane ends in `B_BROKEN`
with both counters 0. -/
theorem c1_startup_debounce_counterexample :
    ¬ ((lane_beam_b_event (lane_beam_a_event laneInit 0) 5).state =
         LaneState.LANE_COOLDOWN ∧
       (lane_beam_b_event (lane_beam_a_event laneInit 0) 5).bees_in = 1 ∧
       (lane_beam_b_event (lane_beam_a_event laneInit 0) 5).bees_out = 0) := by
  decide

/-- C4 fails as stated: on a lane in `A_BROKEN` (A edge at 100), a B edge
at 150 (valid transit of 50 ms) does not increment `count_out` — the code
increments `count_in` for the A-then-B direction. -/
theorem c4_counts_in_not_out_counterexample :
    ¬ (lane_beam_b_event (lane_beam_a_event laneInit 100) 150).bees_out = 1 := by
  decide

/-- C6 fails as stated: a lane that entered `A_BROKEN` at t0 = 100 and
receives timeout checks at 400 and 2200 (the latter being later than
`t0 + STUCK_BEAM_MS = 2100`) ends with `stuck = false`: the check at 400
already reverted the lane to `IDLE` without setting `stuck`, and the
check at 2200 is then a no-op. -/
theorem c6_early_revert_counterexample :
    ¬ (lane_check_timeout
         (lane_check_timeout (lane_beam_a_event laneInit 100) 400)
         2200).stuck = true := by
  decide

/-- C7 fails as stated: a timeout check at 400 on a lane that entered
`A_BROKEN` at 100 changes the state (to `IDLE`) yet leaves
`state_enter_ms` at 100 instead of updating it to 400. -/
theorem c7_timeout_revert_counterexample :
    ¬ ((lane_check_timeout
          ⟨.LANE_A_BROKEN, 100, 100, 0, 0, 0, false⟩ 400).state ≠
          (⟨.LANE_A_BROKEN, 100, 100, 0, 0, 0, false⟩ : LaneData).state →
        (lane_check_timeout
          ⟨.LANE_A_BROKEN, 100, 100, 0, 0, 0, false⟩ 400).state_enter_ms =
          400) := by
  decide

/-- C4 (amended): when `on_beam_b_edge` fires outside the debounce
window on a lane in `A_BROKEN`, the lane transitions to `COOLDOWN`
regardless of transit validity, `count_out` is unchanged, and `count_in`
(not `count_out`) is incremented exactly when the transit time lies in
`[MIN_TRANSIT_MS, MAX_TRANSIT_MS]`; outside that window both counters
are unchanged (hence left at 0 when starting from 0). -/
theorem c4_b_edge_on_a_broken (lane : LaneData) (now : Nat)
    (hs : lane.state = .LANE_A_BROKEN)
    (hd : ¬ usub32 now lane.last_edge_b_ms < DEBOUNCE_MS) :
    (lane_beam_b_event lane now).state = LaneState.LANE_COOLDOWN ∧
    (lane_beam_b_event lane now).bees_out = lane.bees_out ∧
    (lane_beam_b_event lane now).bees_in =
      (if MIN_TRANSIT_MS ≤ usub32 now lane.state_enter_ms ∧
          usub32 now lane.state_enter_ms ≤ MAX_TRANSIT_MS then
        (lane.bees_in + 1) % 4294967296
      else lane.bees_in) := by
  rw [beam_b_a_broken hs hd]
  split_ifs <;> simp

/-- Witness for C4: a lane in `A_BROKEN` since 100 receiving a B edge at
150. -/
theorem c4_b_edge_on_a_broken_witness :
    (lane_beam_b_event ⟨.LANE_A_BROKEN, 100, 100, 0, 0, 0, false⟩ 150).state =
        LaneState.LANE_COOLDOWN ∧
    (lane_beam_b_event ⟨.LANE_A_BROKEN, 100, 100, 0, 0, 0, false⟩ 150).bees_out =
        (⟨.LANE_A_BROKEN, 100, 100, 0, 0, 0, false⟩ : LaneData).bees_out ∧
    (lane_beam_b_event ⟨.LANE_A_BROKEN, 100, 100, 0, 0, 0, false⟩ 150).bees_in =
      (if MIN_TRANSIT_MS ≤
            usub32 150 (⟨.LANE_A_BROKEN, 100, 100, 0, 0, 0, false⟩ :
              LaneData).state_enter_ms ∧
          usub32 150 (⟨.LANE_A_BROKEN, 100, 100, 0, 0, 0, false⟩ :
              LaneData).state_enter_ms ≤ MAX_TRANSIT_MS then
        ((⟨.LANE_A_BROKEN, 100, 100, 0, 0, 0, false⟩ :
            LaneData).bees_in + 1) % 4294967296
      else (⟨.LANE_A_BROKEN, 100, 100, 0, 0, 0, false⟩ : LaneData).bees_in) :=
  c4_b_edge_on_a_broken ⟨.LANE_A_BROKEN, 100, 100, 0, 0, 0, false⟩ 150
    rfl (by decide)

/-- Timeout checks that all fall within the transit window leave a
waiting lane untouched. -/
theorem foldl_timeout_noop (ts : List Nat) (lane : LaneData)
    (hs : lane.state = .LANE_A_BROKEN ∨ lane.state = .LANE_B_BROKEN)
    (hts : ∀ u ∈ ts, lane.state_enter_ms ≤ u ∧
      u - lane.state_enter_ms ≤ MAX_TRANSIT_MS ∧ u < 4294967296) :
    ts.foldl lane_check_timeout lane = lane := by
  induction ts with
  | nil => rfl
  | cons u ts ih =>
    simp only [List.foldl_cons]
    rw [timeout_noop_within_window hs (hts u (List.mem_cons_self u ts)).1
      (hts u (List.mem_cons_self u ts)).2.2
      (hts u (List.mem_cons_self u ts)).2.1]
    exact ih fun v hv => hts v (List.mem_cons_of_mem u hv)

/-- C6 (amended): a lane that entered a broken state at `t0` and
receives no further edges has `stuck = true` after a timeout check later
than `t0 + STUCK_BEAM_MS`, provided every earlier check of the sequence
happened no later than `t0 + MAX_TRANSIT_MS` (an intermediate check past
`t0 + MAX_TRANSIT_MS` would revert the lane to `IDLE` without setting
`stuck`, after which no later check sets it). -/
theorem c6_stuck_latched_without_early_revert (lane : LaneData)
    (ts : List Nat) (t : Nat)
    (hs : lane.state = .LANE_A_BROKEN ∨ lane.state = .LANE_B_BROKEN)
    (hts : ∀ u ∈ ts, lane.state_enter_ms ≤ u ∧
      u ≤ lane.state_enter_ms + MAX_TRANSIT_MS)
    (ht1 : lane.state_enter_ms + STUCK_BEAM_MS < t) (ht2 : t < 4294967296) :
    (lane_check_timeout (ts.foldl lane_check_timeout lane) t).stuck = true := by
  rw [foldl_timeout_noop ts lane hs ?_]
  · exact timeout_sets_stuck hs ht1 ht2
  · intro u hu
    have h1 := (hts u hu).1
    have h2 := (hts u hu).2
    simp only [MAX_TRANSIT_MS] at h2 ⊢
    simp only [STUCK_BEAM_MS] at ht1
    exact ⟨h1, by omega, by omega⟩

/-- Witness for C6: lane broken since 100, harmless checks at 150 and
250, stuck-detecting check at 2200. -/
theorem c6_stuck_latched_without_early_revert_witness :
    (lane_check_timeout
      ([150, 250].foldl lane_check_timeout
        ⟨.LANE_A_BROKEN, 100, 100, 0, 0, 0, false⟩) 2200).stuck = true :=
  c6_stuck_latched_without_early_revert
    ⟨.LANE_A_BROKEN, 100, 100, 0, 0, 0, false⟩ [150, 250] 2200
    (Or.inl rfl) (by decide) (by decide) (by decide)

/-- C7 (amended): the edge handlers `lane_beam_a_event` and
`lane_beam_b_event` update `state_enter_ms` to the current time exactly
when they change the lane's state, and leave it unchanged otherwise;
`lane_check_timeout` never updates `state_enter_ms`, even when it
changes the state back to `IDLE`. -/
theorem c7_state_enter_discipline (lane : LaneData) (now : Nat) :
    ((lane_beam_a_event lane now).state ≠ lane.state →
       (lane_beam_a_event lane now).state_enter_ms = now % 4294967296) ∧
    ((lane_beam_a_event lane now).state = lane.state →
       (lane_beam_a_event lane now).state_enter_ms = lane.state_enter_ms) ∧
    ((lane_beam_b_event lane now).state ≠ lane.state →
       (lane_beam_b_event lane now).state_enter_ms = now % 4294967296) ∧
    ((lane_beam_b_event lane now).state = lane.state →
       (lane_beam_b_event lane now).state_enter_ms = lane.state_enter_ms) ∧
    (lane_check_timeout lane now).state_enter_ms = lane.state_enter_ms := by
  obtain ⟨s, e, la, lb, bi, bo, st⟩ := lane
  cases s <;>
    simp only [lane_beam_a_event, lane_beam_b_event, lane_check_timeout] <;>
    split_ifs <;> simp_all

/-- Witness for C7: an accepted A edge at 100 on a fresh lane changes the
state, so `state_enter_ms` becomes the current time. -/
theorem c7_state_enter_discipline_witness :
    (lane_beam_a_event laneInit 100).state_enter_ms = 100 % 4294967296 :=
  (c7_state_enter_discipline laneInit 100).1 (by decide)

/-- C1 (amended): for every pair of times `(a, b)` with
`DEBOUNCE_MS ≤ a` (so the first edge is not debounced against the
zero-initialised edge timestamp of a fresh lane), `b < 2^32`, and
`b - a` in `[MIN_TRANSIT_MS, MAX_TRANSIT_MS]`: a freshly initialised
lane fed an A edge at `a` then a B edge at `b` ends in `COOLDOWN` with
`count_in = 1` and `count_out = 0`; the symmetric B-then-A sequence ends
in `COOLDOWN` with `count_out = 1` and `count_in = 0`. -/
theorem c1_valid_transit_counts (a b : Nat)
    (ha : DEBOUNCE_MS ≤ a) (hb : b < 4294967296)
    (hmin : MIN_TRANSIT_MS ≤ b - a) (hmax : b - a ≤ MAX_TRANSIT_MS) :
    ((lane_beam_b_event (lane_beam_a_event laneInit a) b).state =
        LaneState.LANE_COOLDOWN ∧
     (lane_beam_b_event (lane_beam_a_event laneInit a) b).bees_in = 1 ∧
     (lane_beam_b_event (lane_beam_a_event laneInit a) b).bees_out = 0) ∧
    ((lane_beam_a_event (lane_beam_b_event laneInit a) b).state =
        LaneState.LANE_COOLDOWN ∧
     (lane_beam_a_event (lane_beam_b_event laneInit a) b).bees_out = 1 ∧
     (lane_beam_a_event (lane_beam_b_event laneInit a) b).bees_in = 0) := by
  simp only [DEBOUNCE_MS] at ha
  simp only [MIN_TRANSIT_MS] at hmin
  simp only [MAX_TRANSIT_MS] at hmax
  have haN : a < 4294967296 := by omega
  have hab : a ≤ b := by omega
  have hamod : a % 4294967296 = a := Nat.mod_eq_of_lt haN
  have hua : usub32 a 0 = a := by unfold usub32; omega
  have hub : usub32 b 0 = b := by unfold usub32; omega
  have huba : usub32 b a = b - a := usub32_eq hab hb
  have hda : ¬ usub32 a laneInit.last_edge_a_ms < DEBOUNCE_MS := by
    rw [show laneInit.last_edge_a_ms = 0 from rfl, hua]
    simp only [DEBOUNCE_MS]
    omega
  have hdb : ¬ usub32 a laneInit.last_edge_b_ms < DEBOUNCE_MS := by
    rw [show laneInit.last_edge_b_ms = 0 from rfl, hua]
    simp only [DEBOUNCE_MS]
    omega
  have e1 : lane_beam_a_event laneInit a =
      { state := .LANE_A_BROKEN, state_enter_ms := a, last_edge_a_ms := a,
        last_edge_b_ms := 0, bees_in := 0, bees_out := 0, stuck := false } := by
    rw [beam_a_idle rfl hda]
    simp [laneInit, hamod]
  have e1b : lane_beam_b_event laneInit a =
      { state := .LANE_B_BROKEN, state_enter_ms := a, last_edge_a_ms := 0,
        last_edge_b_ms := a, bees_in := 0, bees_out := 0, stuck := false } := by
    rw [beam_b_idle rfl hdb]
    simp [laneInit, hamod]
  constructor
  · have hdb2 : ¬ usub32 b (lane_beam_a_event laneInit a).last_edge_b_ms <
        DEBOUNCE_MS := by
      rw [show (lane_beam_a_event laneInit a).last_edge_b_ms = 0 from
        by rw [e1], hub]
      simp only [DEBOUNCE_MS]
      omega
    rw [beam_b_a_broken (by rw [e1]) hdb2]
    rw [if_pos (by
      rw [show (lane_beam_a_event laneInit a).state_enter_ms = a from
        by rw [e1], huba]
      simp only [MIN_TRANSIT_MS, MAX_TRANSIT_MS]
      exact ⟨hmin, hmax⟩)]
    refine ⟨rfl, ?_, ?_⟩
    · rw [show (lane_beam_a_event laneInit a).bees_in = 0 from by rw [e1]]
    · rw [show (lane_beam_a_event laneInit a).bees_out = 0 from by rw [e1]]
  · have hda2 : ¬ usub32 b (lane_beam_b_event laneInit a).last_edge_a_ms <
        DEBOUNCE_MS := by
      rw [show (lane_beam_b_event laneInit a).last_edge_a_ms = 0 from
        by rw [e1b], hub]
      simp only [DEBOUNCE_MS]
      omega
    rw [beam_a_b_broken (by rw [e1b]) hda2]
    rw [if_pos (by
      rw [show (lane_beam_b_event laneInit a).state_enter_ms = a from
        by rw [e1b], huba]
      simp only [MIN_TRANSIT_MS, MAX_TRANSIT_MS]
      exact ⟨hmin, hmax⟩)]
    refine ⟨rfl, ?_, ?_⟩
    · rw [show (lane_beam_b_event laneInit a).bees_out = 0 from by rw [e1b]]
    · rw [show (lane_beam_b_event laneInit a).bees_in = 0 from by rw [e1b]]

/-- Witness for C1 at the concrete pair `(100, 150)`. -/
theorem c1_valid_transit_counts_witness :
    ((lane_beam_b_event (lane_beam_a_event laneInit 100) 150).state =
        LaneState.LANE_COOLDOWN ∧
     (lane_beam_b_event (lane_beam_a_event laneInit 100) 150).bees_in = 1 ∧
     (lane_beam_b_event (lane_beam_a_event laneInit 100) 150).bees_out = 0) ∧
    ((lane_beam_a_event (lane_beam_b_event laneInit 100) 150).state =
        LaneState.LANE_COOLDOWN ∧
     (lane_beam_a_event (lane_beam_b_event laneInit 100) 150).bees_out = 1 ∧
     (lane_beam_a_event (lane_beam_b_event laneInit 100) 150).bees_in = 0) :=
  c1_valid_transit_counts 100 150 (by decide) (by decide) (by decide)
    (by decide)
